import Mathlib

/-
Verification of the circuit facade of the dataflow JIT
(`crates/dataflow-jit/src/facade/mod.rs`).

Shallow embedding conventions:
* A native row is modelled per column: each column holds either its
  little-endian payload bytes, a thin-string reference (dereferenced to the
  string's content), or uninitialized storage; the null-bit vector is kept
  alongside.  Byte offsets of the native layout are abstracted into column
  indices (offsets are opaque and non-overlapping by the layout contract).
* `Constant::Date` carries days since the UTC epoch (chrono's `NaiveDate` is
  in bijection with its day count), `Constant::Timestamp` carries
  milliseconds since the UTC epoch, floats carry their raw bit pattern, and
  `Constant::Decimal` carries the 128-bit little-endian serialized value.
* Panics are modelled as `none` / an `Err.panicked` result; fallible calls
  return `Option` or pair the unchanged state with an error.
-/

set_option maxHeartbeats 1000000

/-- Column types of the row IR (`ColumnType` in `ir`). -/
inductive ColumnType where
  | unit | u8 | i8 | u16 | i16 | u32 | i32 | u64 | i64
  | usize | isize | f32 | f64 | bool | date | timestamp | string | decimal | ptr
deriving DecidableEq

/-- Constants of the row IR (`Constant` in `ir`).  Unsigned integers and float
bit patterns are `Nat`, signed integers, day counts and millisecond counts are
`Int`, decimals are the 128-bit serialized value. -/
inductive Constant where
  | unit
  | u8 (n : Nat) | i8 (n : Int) | u16 (n : Nat) | i16 (n : Int)
  | u32 (n : Nat) | i32 (n : Int) | u64 (n : Nat) | i64 (n : Int)
  | usize (n : Nat) | isize (n : Int)
  | f32 (bits : Nat) | f64 (bits : Nat)
  | bool (b : Bool)
  | date (days : Int)
  | timestamp (millis : Int)
  | string (s : String)
  | decimal (bits : Nat)
deriving DecidableEq

/-- `NullableConstant` from `ir::literal`. -/
inductive NullableConstant where
  | nonNull (c : Constant)
  | nullable (c : Option Constant)
deriving DecidableEq

/-- `RowLiteral` is an ordered vector of `NullableConstant`, one per column. -/
abbrev RowLiteral := List NullableConstant

/-- A logical row layout: for each column its type and nullability flag. -/
abbrev RowLayout := List (ColumnType × Bool)

/-- Storage of one column of a native row: little-endian payload bytes, a
thin-string reference (dereferenced to its content), or uninitialized. -/
inductive Cell where
  | bytes (bs : List Nat)
  | strRef (s : String)
  | uninit
deriving DecidableEq

/-- A native row: per-column storage plus the null-bit vector. -/
structure Row where
  cells : List Cell
  nulls : List Bool
deriving DecidableEq

/-- Little-endian read of a byte list (`ptr.cast::<uN>().read()` on a
little-endian target). -/
def readLE : List Nat → Nat
  | [] => 0
  | b :: bs => b + 256 * readLE bs

/-- Little-endian byte encoding of a value at a given byte width. -/
def natToLE : Nat → Nat → List Nat
  | 0, _ => []
  | w + 1, n => n % 256 :: natToLE w (n / 256)

/-- Two's-complement reinterpretation of a `w`-bit pattern as a signed value
(`ptr.cast::<iN>().read()`). -/
def toSigned (w : Nat) (n : Nat) : Int :=
  if n < 2 ^ (w - 1) then (n : Int) else (n : Int) - 2 ^ w

/-- Two's-complement `w`-bit pattern of a signed value. -/
def encodeSigned (w : Nat) (i : Int) : Nat :=
  (i % (2 ^ w : Int)).toNat

/-- Reading one column's storage back into a `Constant`: the match arms of
`constant_from_column` (facade/mod.rs:569-603).  `Date` decodes the stored
i32 as days since the UTC epoch, `Timestamp` the stored i64 as milliseconds
since the UTC epoch, `Decimal` the stored 128 bits as the little-endian
serialized form; `Ptr` is `todo!()`.  Reads of ill-shaped storage are the
undefined behavior of the source and yield `none`. -/
def decodeCell : ColumnType → Cell → Option Constant
  | .unit, _ => some .unit
  | .u8, .bytes bs => if bs.length = 1 then some (.u8 (readLE bs)) else none
  | .i8, .bytes bs => if bs.length = 1 then some (.i8 (toSigned 8 (readLE bs))) else none
  | .u16, .bytes bs => if bs.length = 2 then some (.u16 (readLE bs)) else none
  | .i16, .bytes bs => if bs.length = 2 then some (.i16 (toSigned 16 (readLE bs))) else none
  | .u32, .bytes bs => if bs.length = 4 then some (.u32 (readLE bs)) else none
  | .i32, .bytes bs => if bs.length = 4 then some (.i32 (toSigned 32 (readLE bs))) else none
  | .u64, .bytes bs => if bs.length = 8 then some (.u64 (readLE bs)) else none
  | .i64, .bytes bs => if bs.length = 8 then some (.i64 (toSigned 64 (readLE bs))) else none
  | .usize, .bytes bs => if bs.length = 8 then some (.usize (readLE bs)) else none
  | .isize, .bytes bs => if bs.length = 8 then some (.isize (toSigned 64 (readLE bs))) else none
  | .f32, .bytes bs => if bs.length = 4 then some (.f32 (readLE bs)) else none
  | .f64, .bytes bs => if bs.length = 8 then some (.f64 (readLE bs)) else none
  | .bool, .bytes bs =>
    if bs = [0] then some (.bool false) else if bs = [1] then some (.bool true) else none
  | .date, .bytes bs => if bs.length = 4 then some (.date (toSigned 32 (readLE bs))) else none
  | .timestamp, .bytes bs =>
    if bs.length = 8 then some (.timestamp (toSigned 64 (readLE bs))) else none
  | .string, .strRef s => some (.string s)
  | .decimal, .bytes bs => if bs.length = 16 then some (.decimal (readLE bs)) else none
  | _, _ => none

/-- `constant_from_column` (facade/mod.rs:561-604): read column `column` of
`row` at the layout's offset and decode it at the column's type. -/
def constant_from_column (column : Nat) (row : Row) (layout : RowLayout) : Option Constant :=
  match layout[column]?, row.cells[column]? with
  | some (ty, _), some cell => decodeCell ty cell
  | _, _ => none

/-- `Row::column_is_null`: the null bit of a column (a set bit means null). -/
def Row.column_is_null (row : Row) (column : Nat) : Bool :=
  row.nulls[column]?.getD false

/-- Body of the per-column loop of `row_literal_from_row`
(facade/mod.rs:544-556): nullable columns become `Nullable(None)` when the
null bit is set and `Nullable(Some v)` otherwise; non-nullable columns always
become `NonNull v`. -/
def columnLiteral (row : Row) (layout : RowLayout) (column : Nat) : Option NullableConstant :=
  match layout[column]? with
  | none => none
  | some (_, true) =>
    if row.column_is_null column then some (.nullable none)
    else (constant_from_column column row layout).map (fun c => .nullable (some c))
  | some (_, false) => (constant_from_column column row layout).map .nonNull

/-- The loop `for column in 0..layout.len()` of `row_literal_from_row`,
traversing columns from `column` for `rem` further steps. -/
def rowLitAux (row : Row) (layout : RowLayout) : Nat → Nat → Option (List NullableConstant)
  | _, 0 => some []
  | column, rem + 1 =>
    match columnLiteral row layout column, rowLitAux row layout (column + 1) rem with
    | some v, some rest => some (v :: rest)
    | _, _ => none

/-- `row_literal_from_row` (facade/mod.rs:542-559). -/
def row_literal_from_row (row : Row) (layout : RowLayout) : Option RowLiteral :=
  rowLitAux row layout 0 layout.length

/-- Modelled from the spec: the per-column write of `row_from_literal`, which
lives in `crate::row` (not under src/).  Spec 4.2/4.3: each payload is written
at the column's offset in the native encoding of its type; `Ptr` columns are
not supported and raise an error; a constant whose variant does not match the
column type violates the stated precondition. -/
def encodeConstant : ColumnType → Constant → Option Cell
  | .unit, .unit => some (.bytes [])
  | .u8, .u8 n => some (.bytes (natToLE 1 n))
  | .i8, .i8 i => some (.bytes (natToLE 1 (encodeSigned 8 i)))
  | .u16, .u16 n => some (.bytes (natToLE 2 n))
  | .i16, .i16 i => some (.bytes (natToLE 2 (encodeSigned 16 i)))
  | .u32, .u32 n => some (.bytes (natToLE 4 n))
  | .i32, .i32 i => some (.bytes (natToLE 4 (encodeSigned 32 i)))
  | .u64, .u64 n => some (.bytes (natToLE 8 n))
  | .i64, .i64 i => some (.bytes (natToLE 8 (encodeSigned 64 i)))
  | .usize, .usize n => some (.bytes (natToLE 8 n))
  | .isize, .isize i => some (.bytes (natToLE 8 (encodeSigned 64 i)))
  | .f32, .f32 p => some (.bytes (natToLE 4 p))
  | .f64, .f64 p => some (.bytes (natToLE 8 p))
  | .bool, .bool b => some (.bytes [if b then 1 else 0])
  | .date, .date d => some (.bytes (natToLE 4 (encodeSigned 32 d)))
  | .timestamp, .timestamp t => some (.bytes (natToLE 8 (encodeSigned 64 t)))
  | .string, .string s => some (.strRef s)
  | .decimal, .decimal n => some (.bytes (natToLE 16 n))
  | _, _ => none

/-- Modelled from the spec: column traversal of `row_from_literal`
(`crate::row`, not under src/).  Spec 4.3: for nullable columns the null bit
is written first and the payload is written iff the value is non-null; the
literal's length and nullability vector must match the layout. -/
def rowFromLiteralGo : List NullableConstant → RowLayout → Option (List Cell × List Bool)
  | [], [] => some ([], [])
  | .nonNull c :: lit, (ty, false) :: lay =>
    match encodeConstant ty c, rowFromLiteralGo lit lay with
    | some cell, some (cells, nulls) => some (cell :: cells, false :: nulls)
    | _, _ => none
  | .nullable none :: lit, (_, true) :: lay =>
    match rowFromLiteralGo lit lay with
    | some (cells, nulls) => some (Cell.uninit :: cells, true :: nulls)
    | none => none
  | .nullable (some c) :: lit, (ty, true) :: lay =>
    match encodeConstant ty c, rowFromLiteralGo lit lay with
    | some cell, some (cells, nulls) => some (cell :: cells, false :: nulls)
    | _, _ => none
  | _, _ => none

/-- Modelled from the spec: `row_from_literal` (`crate::row`, not under
src/): allocate an uninitialized row and write every column of the literal. -/
def row_from_literal (literal : RowLiteral) (layout : RowLayout) : Option Row :=
  (rowFromLiteralGo literal layout).map fun p => ⟨p.1, p.2⟩

/-- Value well-formedness of a constant at a column type: the range
constraints that the Rust value types (`u8`, `i8`, …) carry statically. -/
def constWF : ColumnType → Constant → Bool
  | .unit, .unit => true
  | .u8, .u8 n => decide (n < 2 ^ 8)
  | .i8, .i8 i => decide (-(2 ^ 7) ≤ i ∧ i < 2 ^ 7)
  | .u16, .u16 n => decide (n < 2 ^ 16)
  | .i16, .i16 i => decide (-(2 ^ 15) ≤ i ∧ i < 2 ^ 15)
  | .u32, .u32 n => decide (n < 2 ^ 32)
  | .i32, .i32 i => decide (-(2 ^ 31) ≤ i ∧ i < 2 ^ 31)
  | .u64, .u64 n => decide (n < 2 ^ 64)
  | .i64, .i64 i => decide (-(2 ^ 63) ≤ i ∧ i < 2 ^ 63)
  | .usize, .usize n => decide (n < 2 ^ 64)
  | .isize, .isize i => decide (-(2 ^ 63) ≤ i ∧ i < 2 ^ 63)
  | .f32, .f32 p => decide (p < 2 ^ 32)
  | .f64, .f64 p => decide (p < 2 ^ 64)
  | .bool, .bool _ => true
  | .date, .date d => decide (-(2 ^ 31) ≤ d ∧ d < 2 ^ 31)
  | .timestamp, .timestamp t => decide (-(2 ^ 63) ≤ t ∧ t < 2 ^ 63)
  | .string, .string _ => true
  | .decimal, .decimal n => decide (n < 2 ^ 128)
  | _, _ => false

/-- Well-formedness of a literal at a layout: the length matches, the
`NonNull`/`Nullable` variants match the nullability vector, and every
constant is well-formed at its column's type. -/
def literalWF : RowLiteral → RowLayout → Bool
  | [], [] => true
  | .nonNull c :: lit, (ty, false) :: lay => constWF ty c && literalWF lit lay
  | .nullable none :: lit, (_, true) :: lay => literalWF lit lay
  | .nullable (some c) :: lit, (ty, true) :: lay => constWF ty c && literalWF lit lay
  | _, _ => false

/-- A layout contains no `Ptr` columns. -/
def noPtr (layout : RowLayout) : Bool :=
  layout.all fun c => c.1 != ColumnType.ptr

/-- Node identifiers (`NodeId`). -/
abbrev NodeId := Nat

/-- Layout identifiers (`LayoutId`). -/
abbrev LayoutId := Nat

/-- `StreamLayout` from `ir::nodes`: a source/sink carries a multiset of keys
or of key-value pairs. -/
inductive StreamLayout where
  | set (key : LayoutId)
  | map (key : LayoutId) (value : LayoutId)
deriving DecidableEq

/-- `StreamCollection` from `ir::literal`: a portable batch description. -/
inductive StreamCollection where
  | set (rows : List (RowLiteral × Int))
  | map (rows : List (RowLiteral × RowLiteral × Int))
deriving DecidableEq

/-- Modelled from the spec: `StreamCollection::empty` (`ir::literal`, not
under src/) returns the empty collection of the declared stream shape. -/
def StreamCollection.empty : StreamLayout → StreamCollection
  | .set _ => .set []
  | .map _ _ => .map []

/-- `RowInput`: a source endpoint, holding the rows pushed so far. -/
inductive RowInput where
  | set (batch : List (Row × Int))
  | map (batch : List (Row × Row × Int))
deriving DecidableEq

/-- `RowOutput`: a sink endpoint, as the consolidated batch its cursor walks:
keys in order and, for maps, each key's values with their weights. -/
inductive RowOutput where
  | set (batch : List (Row × Int))
  | map (batch : List (Row × List (Row × Int)))
deriving DecidableEq

/-- `DbspCircuit` (facade/mod.rs:90-102): endpoint maps (`None` endpoint for
an unused source / unreachable sink, retaining the declared `StreamLayout`),
the registered JSON deserialization demands, and the layout cache. -/
structure DbspCircuit where
  inputs : List (NodeId × (Option RowInput × StreamLayout))
  outputs : List (NodeId × (Option RowOutput × StreamLayout))
  json_deser_demands : List LayoutId
  layouts : LayoutId → RowLayout

/-- Abnormal terminations of facade operations. -/
inductive Err where
  | panicked
  | notImplemented
  | parseError (msg : String)
deriving DecidableEq

/-- Replace the endpoint stored for `target` in an input map. -/
def setInput (m : List (NodeId × (Option RowInput × StreamLayout))) (target : NodeId)
    (inp : RowInput) : List (NodeId × (Option RowInput × StreamLayout)) :=
  m.map fun e => if e.1 = target then (e.1, (some inp, e.2.2)) else e

/-- `DbspCircuit::append_input` (facade/mod.rs:263-317).  Unknown nodes and
kind mismatches panic; an absent endpoint is a logged no-op; otherwise every
literal is converted by `row_from_literal` and the batch is appended. -/
def append_input (c : DbspCircuit) (target : NodeId) (data : StreamCollection) :
    DbspCircuit × Option Err :=
  match c.inputs.lookup target with
  | none => (c, some .panicked)
  | some (none, _) => (c, none)
  | some (some input, layout) =>
    match data with
    | .set s =>
      match layout with
      | .map _ _ => (c, some .panicked)
      | .set keyId =>
        match s.mapM (fun lw => (row_from_literal lw.1 (c.layouts keyId)).map
            (fun r => (r, lw.2))) with
        | none => (c, some .panicked)
        | some newRows =>
          match input with
          | .map _ => (c, some .panicked)
          | .set batch =>
            ({ c with inputs := setInput c.inputs target (RowInput.set (batch ++ newRows)) },
              none)
    | .map m =>
      match layout with
      | .set _ => (c, some .panicked)
      | .map keyId valId =>
        match m.mapM (fun kvw =>
            match row_from_literal kvw.1 (c.layouts keyId),
                  row_from_literal kvw.2.1 (c.layouts valId) with
            | some k, some v => some (k, v, kvw.2.2)
            | _, _ => none) with
        | none => (c, some .panicked)
        | some newRows =>
          match input with
          | .set _ => (c, some .panicked)
          | .map batch =>
            ({ c with inputs := setInput c.inputs target (RowInput.map (batch ++ newRows)) },
              none)

/-- One top-level JSON value of an input stream, abstracted to its parse
outcome: `ok r` is a value the generated deserializer turns into row `r`,
`error e` is a malformed value. -/
abbrev JsonParse := Except String Row

/-- The `for value in stream` loop of `append_json_input`: deserialization
stops at the first malformed value (`value.unwrap()`), before anything is
appended; later values are never reached. -/
def parseAll : List JsonParse → Except String (List Row)
  | [] => .ok []
  | .ok r :: rest =>
    match parseAll rest with
    | .ok rs => .ok (r :: rs)
    | .error e => .error e
  | .error e :: _ => .error e

/-- `DbspCircuit::append_json_input` (facade/mod.rs:321-369).  Unknown nodes
panic, absent endpoints are a no-op, map-typed sources hit `todo!()`, a
missing JSON demand for the key layout panics, and a parse failure aborts the
call before the local batch is appended. -/
def append_json_input (c : DbspCircuit) (target : NodeId) (json : List JsonParse) :
    DbspCircuit × Option Err :=
  match c.inputs.lookup target with
  | none => (c, some .panicked)
  | some (none, _) => (c, none)
  | some (some input, layout) =>
    match layout with
    | .map _ _ => (c, some .notImplemented)
    | .set keyId =>
      if c.json_deser_demands.contains keyId then
        match parseAll json with
        | .error e => (c, some (.parseError e))
        | .ok rows =>
          match input with
          | .map _ => (c, some .panicked)
          | .set batch =>
            let updated := setInput c.inputs target (RowInput.set (batch ++ rows.map (fun r => (r, 1))))
            ({ c with inputs := updated }, none)
      else (c, some .panicked)

/-- `DbspCircuit::append_json_record` (facade/mod.rs:371-409): the single
record variant of `append_json_input`. -/
def append_json_record (c : DbspCircuit) (target : NodeId) (record : JsonParse) :
    DbspCircuit × Option Err :=
  match c.inputs.lookup target with
  | none => (c, some .panicked)
  | some (none, _) => (c, none)
  | some (some input, layout) =>
    match layout with
    | .map _ _ => (c, some .notImplemented)
    | .set keyId =>
      if c.json_deser_demands.contains keyId then
        match record with
        | .error e => (c, some (.parseError e))
        | .ok r =>
          match input with
          | .map _ => (c, some .panicked)
          | .set batch =>
            let updated := setInput c.inputs target (RowInput.set (batch ++ [(r, 1)]))
            ({ c with inputs := updated }, none)
      else (c, some .panicked)

/-- Inner value loop of the map arm of `consolidate_output`
(facade/mod.rs:499-526): the weight `diff` is read once, at the key's first
value, and every emitted `(key, value, diff)` tuple carries it. -/
def consolidateKeyVals (kl : RowLiteral) (valLay : RowLayout) :
    List (Row × Int) → Option (List (RowLiteral × RowLiteral × Int))
  | [] => some []
  | (v0, w0) :: rest =>
    match row_literal_from_row v0 valLay,
          rest.mapM (fun vw => (row_literal_from_row vw.1 valLay).map
            (fun vl => (kl, vl, w0))) with
    | some vl0, some tail => some ((kl, vl0, w0) :: tail)
    | _, _ => none

/-- Key loop of the map arm of `consolidate_output`. -/
def consolidateMapBatch (keyLay valLay : RowLayout) :
    List (Row × List (Row × Int)) → Option (List (RowLiteral × RowLiteral × Int))
  | [] => some []
  | (k, vals) :: rest =>
    match row_literal_from_row k keyLay with
    | none => none
    | some kl =>
      match consolidateKeyVals kl valLay vals, consolidateMapBatch keyLay valLay rest with
      | some entries, some tailEntries => some (entries ++ tailEntries)
      | _, _ => none

/-- `DbspCircuit::consolidate_output` (facade/mod.rs:459-539).  Unknown sinks
panic; an absent endpoint yields the empty collection of the declared shape;
otherwise the consolidated batch is read back into literals. -/
def consolidate_output (c : DbspCircuit) (target : NodeId) : Option StreamCollection :=
  match c.outputs.lookup target with
  | none => none
  | some (none, layout) => some (StreamCollection.empty layout)
  | some (some out, layout) =>
    match out with
    | .set batch =>
      match layout with
      | .map _ _ => none
      | .set keyId =>
        (batch.mapM (fun rw => (row_literal_from_row rw.1 (c.layouts keyId)).map
          (fun kl => (kl, rw.2)))).map .set
    | .map batch =>
      match layout with
      | .set _ => none
      | .map keyId valId =>
        (consolidateMapBatch (c.layouts keyId) (c.layouts valId) batch).map .map

/-- Weight stored at a key's first value (what `cursor.weight()` returns when
the key becomes valid). -/
def firstWeight : List (Row × Int) → Int
  | [] => 0
  | vw :: _ => vw.2

/-- `JsonDeserConfig` from `codegen::json`, abstracted to its layout and an
opaque mapping descriptor. -/
structure JsonDeserConfig where
  layout : LayoutId
  mapping : Nat
deriving DecidableEq

/-- `Demands` (facade/mod.rs:34-38): write-once maps from layout to CSV column
mappings and JSON deserialization configs. -/
structure Demands where
  csv : List (LayoutId × List (Nat × Nat × Option String))
  json_deser : List (LayoutId × JsonDeserConfig)
deriving DecidableEq

/-- `Demands::new`. -/
def Demands.new : Demands := ⟨[], []⟩

/-- `Demands::add_csv_deserialize` (facade/mod.rs:49-56): `assert_eq!` that
no mapping was displaced, i.e. panic (`none`) on a duplicate layout. -/
def Demands.add_csv_deserialize (d : Demands) (layout : LayoutId)
    (column_mappings : List (Nat × Nat × Option String)) : Option Demands :=
  match d.csv.lookup layout with
  | some _ => none
  | none => some { d with csv := (layout, column_mappings) :: d.csv }

/-- `Demands::add_json_deserialize` (facade/mod.rs:58-61). -/
def Demands.add_json_deserialize (d : Demands) (layout : LayoutId)
    (mappings : JsonDeserConfig) : Option Demands :=
  match d.json_deser.lookup layout with
  | some _ => none
  | none => some { d with json_deser := (layout, mappings) :: d.json_deser }

/-- The graph as the facade consumes it: its declared source and sink
enumerations (`Graph::source_nodes` / `Graph::sink_nodes`). -/
structure GraphModel where
  sources : List (NodeId × StreamLayout)
  sinks : List (NodeId × StreamLayout)

/-- Endpoint maps returned by `Runtime::init_circuit` for the nodes actually
instantiated after optimization. -/
structure RuntimeEndpoints where
  inputs : List (NodeId × (RowInput × StreamLayout))
  outputs : List (NodeId × (RowOutput × StreamLayout))

/-- `BTreeMap::entry(k).or_insert(v)` on an association list. -/
def orInsert {α : Type} (m : List (NodeId × α)) (k : NodeId) (v : α) : List (NodeId × α) :=
  match m.lookup k with
  | some _ => m
  | none => m ++ [(k, v)]

/-- The left join of `DbspCircuit::new` (facade/mod.rs:168-184): endpoints
returned by the runtime become `Some`, then every declared node missing from
the map is inserted with a `None` endpoint and its declared layout. -/
def accountMissing {α : Type} (runtime : List (NodeId × (α × StreamLayout)))
    (declared : List (NodeId × StreamLayout)) : List (NodeId × (Option α × StreamLayout)) :=
  declared.foldl (fun m sl => orInsert m sl.1 (none, sl.2))
    (runtime.map fun il => (il.1, (some il.2.1, il.2.2)))

/-- `DbspCircuit::new` (facade/mod.rs:105-195), with the validator, optimizer
and runtime factory as opaque collaborators: snapshot the declared sources
and sinks first, validate, optionally optimize and re-validate, run the
runtime on the (possibly optimized) graph, and left-join its endpoint maps
with the snapshots. -/
def circuitNew (graph : GraphModel) (optimize : Bool)
    (optimizer : GraphModel → GraphModel) (validate : GraphModel → Bool)
    (runtimeOf : GraphModel → RuntimeEndpoints)
    (demands : Demands) (layouts : LayoutId → RowLayout) : Option DbspCircuit :=
  let sources := graph.sources
  let sinks := graph.sinks
  if validate graph then
    let optimized := if optimize then optimizer graph else graph
    if optimize && !validate optimized then none
    else
      let rt := runtimeOf optimized
      some {
        inputs := accountMissing rt.inputs sources
        outputs := accountMissing rt.outputs sinks
        json_deser_demands := demands.json_deser.map Prod.fst
        layouts := layouts }
  else none

/-- Concrete layout exercising integers, strings, decimals, dates, booleans
and nullable columns, used by witnesses. -/
def c1Lay : RowLayout :=
  [(.i32, false), (.string, true), (.decimal, false), (.date, true), (.bool, false),
   (.u64, true)]

/-- Concrete well-formed literal of shape `c1Lay`. -/
def c1Lit : RowLiteral :=
  [.nonNull (.i32 (-5)), .nullable (some (.string "foobar")), .nonNull (.decimal 123456789),
   .nullable none, .nonNull (.bool true), .nullable (some (.u64 18446744073709551615))]

/-- Concrete two-column layout with a nullable column. -/
def c2Lay : RowLayout := [(.u8, false), (.i8, true)]

/-- Concrete row of shape `c2Lay` whose second column is null. -/
def c2Row : Row := ⟨[.bytes [5], .uninit], [false, true]⟩

/-- The literal `row_literal_from_row` produces from `c2Row`. -/
def c2Lit : RowLiteral := [.nonNull (.u8 5), .nullable none]

/-- One-column non-nullable u8 layout. -/
def witLayU8 : RowLayout := [(.u8, false)]

/-- Layout cache mapping every id to `witLayU8`. -/
def witLayouts : LayoutId → RowLayout := fun _ => witLayU8

/-- Concrete one-column row holding the byte 7. -/
def witRow7 : Row := ⟨[.bytes [7]], [false]⟩

/-- Concrete one-column row holding the byte 9. -/
def witRow9 : Row := ⟨[.bytes [9]], [false]⟩

/-- Consolidated map batch with one key and two values of distinct weights. -/
def witMapBatch : List (Row × List (Row × Int)) :=
  [(witRow7, [(witRow9, 2), (witRow7, 5)])]

/-- Concrete circuit: a live set source (node 0), an absent source (node 1),
a live map source (node 2), an absent map sink (node 3) and a live map sink
(node 4). -/
def witCircuit : DbspCircuit :=
  { inputs := [(0, (some (.set []), .set 0)), (1, (none, .set 0)),
      (2, (some (.map []), .map 0 0))]
    outputs := [(3, (none, .map 0 0)), (4, (some (.map witMapBatch), .map 0 0))]
    json_deser_demands := [0]
    layouts := witLayouts }

/-- The triples `consolidate_output` emits for node 4 of `witCircuit`: both
values of the key carry the first value's weight. -/
def witTriples : List (RowLiteral × RowLiteral × Int) :=
  [([.nonNull (.u8 7)], [.nonNull (.u8 9)], 2),
   ([.nonNull (.u8 7)], [.nonNull (.u8 7)], 2)]

/-- Demands registry holding one CSV and one JSON entry for layout 5. -/
def witDemands : Demands := ⟨[(5, [(0, 0, none)])], [(5, ⟨5, 0⟩)]⟩

/-- Concrete graph with two declared sources and one declared sink. -/
def witGraph : GraphModel := ⟨[(0, .set 0), (1, .set 0)], [(3, .map 0 0)]⟩

/-- Runtime endpoints instantiating only source 0. -/
def witRuntime : RuntimeEndpoints := ⟨[(0, (.set [], .set 0))], []⟩

/-- Runtime factory returning `witRuntime` for every graph. -/
def witRuntimeOf : GraphModel → RuntimeEndpoints := fun _ => witRuntime

/-- Identity optimizer. -/
def witOptimizer : GraphModel → GraphModel := fun g => g

/-- Validator accepting every graph. -/
def witValidate : GraphModel → Bool := fun _ => true

/-- The circuit `circuitNew` produces from `witGraph` and `witRuntimeOf`. -/
def witNewCircuit : DbspCircuit :=
  { inputs := [(0, (some (.set []), .set 0)), (1, (none, .set 0))]
    outputs := [(3, (none, .map 0 0))]
    json_deser_demands := []
    layouts := witLayouts }

theorem natToLE_length (w n : Nat) : (natToLE w n).length = w := by
  induction w generalizing n with
  | zero => rfl
  | succ w ih => simp [natToLE, ih]

theorem readLE_natToLE (w n : Nat) (h : n < 256 ^ w) : readLE (natToLE w n) = n := by
  induction w generalizing n with
  | zero =>
    simp only [natToLE, readLE]
    omega
  | succ w ih =>
    have hdiv : n / 256 < 256 ^ w := by
      rw [Nat.div_lt_iff_lt_mul (by norm_num)]
      calc n < 256 ^ (w + 1) := h
        _ = 256 ^ w * 256 := by rw [Nat.pow_succ]
    simp only [natToLE, readLE, ih (n / 256) hdiv]
    omega

theorem encodeSigned_lt (w : Nat) (i : Int) : encodeSigned w i < 2 ^ w := by
  have hpos : (0 : Int) < 2 ^ w := by positivity
  have h := Int.emod_lt_of_pos i hpos
  have h0 := Int.emod_nonneg i (ne_of_gt hpos)
  have hcast : ((2 ^ w : Nat) : Int) = (2 : Int) ^ w := by push_cast; ring
  unfold encodeSigned
  omega

theorem signed_roundtrip (H : Nat) (i : Int) (hlo : -(H : Int) ≤ i) (hhi : i < (H : Int)) :
    (if (i % (2 * (H : Int))).toNat < H then (((i % (2 * (H : Int))).toNat : Nat) : Int)
     else (((i % (2 * (H : Int))).toNat : Nat) : Int) - 2 * (H : Int)) = i := by
  have hH : (0 : Int) < (H : Int) := by omega
  rcases le_or_lt 0 i with hpos | hneg
  · have hm : i % (2 * (H : Int)) = i := Int.emod_eq_of_lt hpos (by omega)
    rw [hm]
    split <;> omega
  · have hre : (i + 2 * (H : Int)) % (2 * (H : Int)) = i % (2 * (H : Int)) := by
      simp [Int.add_mul_emod_self_left]
    have hm : i % (2 * (H : Int)) = i + 2 * (H : Int) := by
      rw [← hre]
      exact Int.emod_eq_of_lt (by omega) (by omega)
    rw [hm]
    split <;> omega

theorem toSigned_encodeSigned (w H : Nat) (hw : (2 : Nat) ^ w = 2 * H)
    (hH : (2 : Nat) ^ (w - 1) = H) (i : Int)
    (hlo : -(H : Int) ≤ i) (hhi : i < (H : Int)) :
    toSigned w (encodeSigned w i) = i := by
  have hwI : (2 : Int) ^ w = 2 * (H : Int) := by
    have h := congrArg (fun n : Nat => (n : Int)) hw
    push_cast at h
    exact h
  unfold toSigned encodeSigned
  rw [hH, hwI]
  exact signed_roundtrip H i hlo hhi

theorem decode_u8 (n : Nat) (h : n < 2 ^ 8) :
    decodeCell .u8 (.bytes (natToLE 1 n)) = some (.u8 n) := by
  simp [decodeCell, natToLE_length, readLE_natToLE 1 n (by omega)]

theorem decode_u16 (n : Nat) (h : n < 2 ^ 16) :
    decodeCell .u16 (.bytes (natToLE 2 n)) = some (.u16 n) := by
  simp [decodeCell, natToLE_length, readLE_natToLE 2 n (by omega)]

theorem decode_u32 (n : Nat) (h : n < 2 ^ 32) :
    decodeCell .u32 (.bytes (natToLE 4 n)) = some (.u32 n) := by
  simp [decodeCell, natToLE_length, readLE_natToLE 4 n (by omega)]

theorem decode_u64 (n : Nat) (h : n < 2 ^ 64) :
    decodeCell .u64 (.bytes (natToLE 8 n)) = some (.u64 n) := by
  simp [decodeCell, natToLE_length, readLE_natToLE 8 n (by omega)]

theorem decode_usize (n : Nat) (h : n < 2 ^ 64) :
    decodeCell .usize (.bytes (natToLE 8 n)) = some (.usize n) := by
  simp [decodeCell, natToLE_length, readLE_natToLE 8 n (by omega)]

theorem decode_f32 (n : Nat) (h : n < 2 ^ 32) :
    decodeCell .f32 (.bytes (natToLE 4 n)) = some (.f32 n) := by
  simp [decodeCell, natToLE_length, readLE_natToLE 4 n (by omega)]

theorem decode_f64 (n : Nat) (h : n < 2 ^ 64) :
    decodeCell .f64 (.bytes (natToLE 8 n)) = some (.f64 n) := by
  simp [decodeCell, natToLE_length, readLE_natToLE 8 n (by omega)]

theorem decode_decimal (n : Nat) (h : n < 2 ^ 128) :
    decodeCell .decimal (.bytes (natToLE 16 n)) = some (.decimal n) := by
  simp [decodeCell, natToLE_length, readLE_natToLE 16 n (by omega)]

theorem decode_i8 (i : Int) (hlo : -(2 ^ 7) ≤ i) (hhi : i < 2 ^ 7) :
    decodeCell .i8 (.bytes (natToLE 1 (encodeSigned 8 i))) = some (.i8 i) := by
  have hb : encodeSigned 8 i < 256 ^ 1 := by
    have := encodeSigned_lt 8 i
    omega
  simp [decodeCell, natToLE_length, readLE_natToLE 1 _ hb]
  refine toSigned_encodeSigned 8 (2 ^ 7) (by norm_num) (by norm_num) i ?_ ?_ <;>
    push_cast <;> omega

theorem decode_i16 (i : Int) (hlo : -(2 ^ 15) ≤ i) (hhi : i < 2 ^ 15) :
    decodeCell .i16 (.bytes (natToLE 2 (encodeSigned 16 i))) = some (.i16 i) := by
  have hb : encodeSigned 16 i < 256 ^ 2 := by
    have := encodeSigned_lt 16 i
    omega
  simp [decodeCell, natToLE_length, readLE_natToLE 2 _ hb]
  refine toSigned_encodeSigned 16 (2 ^ 15) (by norm_num) (by norm_num) i ?_ ?_ <;>
    push_cast <;> omega

theorem decode_i32 (i : Int) (hlo : -(2 ^ 31) ≤ i) (hhi : i < 2 ^ 31) :
    decodeCell .i32 (.bytes (natToLE 4 (encodeSigned 32 i))) = some (.i32 i) := by
  have hb : encodeSigned 32 i < 256 ^ 4 := by
    have := encodeSigned_lt 32 i
    omega
  simp [decodeCell, natToLE_length, readLE_natToLE 4 _ hb]
  refine toSigned_encodeSigned 32 (2 ^ 31) (by norm_num) (by norm_num) i ?_ ?_ <;>
    push_cast <;> omega

theorem decode_i64 (i : Int) (hlo : -(2 ^ 63) ≤ i) (hhi : i < 2 ^ 63) :
    decodeCell .i64 (.bytes (natToLE 8 (encodeSigned 64 i))) = some (.i64 i) := by
  have hb : encodeSigned 64 i < 256 ^ 8 := by
    have := encodeSigned_lt 64 i
    omega
  simp [decodeCell, natToLE_length, readLE_natToLE 8 _ hb]
  refine toSigned_encodeSigned 64 (2 ^ 63) (by norm_num) (by norm_num) i ?_ ?_ <;>
    push_cast <;> omega

theorem decode_isize (i : Int) (hlo : -(2 ^ 63) ≤ i) (hhi : i < 2 ^ 63) :
    decodeCell .isize (.bytes (natToLE 8 (encodeSigned 64 i))) = some (.isize i) := by
  have hb : encodeSigned 64 i < 256 ^ 8 := by
    have := encodeSigned_lt 64 i
    omega
  simp [decodeCell, natToLE_length, readLE_natToLE 8 _ hb]
  refine toSigned_encodeSigned 64 (2 ^ 63) (by norm_num) (by norm_num) i ?_ ?_ <;>
    push_cast <;> omega

theorem decode_date (i : Int) (hlo : -(2 ^ 31) ≤ i) (hhi : i < 2 ^ 31) :
    decodeCell .date (.bytes (natToLE 4 (encodeSigned 32 i))) = some (.date i) := by
  have hb : encodeSigned 32 i < 256 ^ 4 := by
    have := encodeSigned_lt 32 i
    omega
  simp [decodeCell, natToLE_length, readLE_natToLE 4 _ hb]
  refine toSigned_encodeSigned 32 (2 ^ 31) (by norm_num) (by norm_num) i ?_ ?_ <;>
    push_cast <;> omega

theorem decode_timestamp (i : Int) (hlo : -(2 ^ 63) ≤ i) (hhi : i < 2 ^ 63) :
    decodeCell .timestamp (.bytes (natToLE 8 (encodeSigned 64 i))) = some (.timestamp i) := by
  have hb : encodeSigned 64 i < 256 ^ 8 := by
    have := encodeSigned_lt 64 i
    omega
  simp [decodeCell, natToLE_length, readLE_natToLE 8 _ hb]
  refine toSigned_encodeSigned 64 (2 ^ 63) (by norm_num) (by norm_num) i ?_ ?_ <;>
    push_cast <;> omega

theorem decode_bool_cell (b : Bool) :
    decodeCell .bool (.bytes [if b then 1 else 0]) = some (.bool b) := by
  cases b <;> simp [decodeCell]

theorem decode_unit_cell : decodeCell .unit (.bytes []) = some .unit := rfl

theorem decode_string_cell (s : String) :
    decodeCell .string (.strRef s) = some (.string s) := rfl

set_option maxHeartbeats 4000000 in
theorem decodeCell_encodeConstant (ty : ColumnType) (k : Constant) (cell : Cell)
    (hwf : constWF ty k = true) (henc : encodeConstant ty k = some cell) :
    decodeCell ty cell = some k := by
  cases ty <;> cases k <;>
    first
    | exact Bool.noConfusion hwf
    | (simp only [encodeConstant] at henc
       rw [← Option.some.inj henc]
       first
       | exact decode_unit_cell
       | exact decode_string_cell _
       | exact decode_bool_cell _)
    | (have hb := of_decide_eq_true hwf
       simp only [encodeConstant] at henc
       rw [← Option.some.inj henc]
       first
       | exact decode_u8 _ (by omega)
       | exact decode_u16 _ (by omega)
       | exact decode_u32 _ (by omega)
       | exact decode_u64 _ (by omega)
       | exact decode_usize _ (by omega)
       | exact decode_f32 _ (by omega)
       | exact decode_f64 _ (by omega)
       | exact decode_decimal _ (by omega)
       | exact decode_i8 _ (by omega) (by omega)
       | exact decode_i16 _ (by omega) (by omega)
       | exact decode_i32 _ (by omega) (by omega)
       | exact decode_i64 _ (by omega) (by omega)
       | exact decode_isize _ (by omega) (by omega)
       | exact decode_date _ (by omega) (by omega)
       | exact decode_timestamp _ (by omega) (by omega))

theorem encodeConstant_isSome (ty : ColumnType) (k : Constant) (hwf : constWF ty k = true) :
    ∃ cell, encodeConstant ty k = some cell := by
  cases ty <;> cases k <;>
    first
    | exact Bool.noConfusion hwf
    | exact ⟨_, rfl⟩

theorem rowFromLiteralGo_isSome (lit : List NullableConstant) :
    ∀ (lay : RowLayout), literalWF lit lay = true →
      ∃ cells nulls, rowFromLiteralGo lit lay = some (cells, nulls) := by
  induction lit with
  | nil =>
    intro lay hwf
    cases lay with
    | nil => exact ⟨[], [], rfl⟩
    | cons hd tl => exact Bool.noConfusion hwf
  | cons v lit ih =>
    intro lay hwf
    cases lay with
    | nil =>
      cases v with
      | nonNull c => exact Bool.noConfusion hwf
      | nullable c => cases c <;> exact Bool.noConfusion hwf
    | cons hd tl =>
      obtain ⟨ty, nb⟩ := hd
      cases v with
      | nonNull c =>
        cases nb with
        | true => exact Bool.noConfusion hwf
        | false =>
          simp only [literalWF, Bool.and_eq_true] at hwf
          obtain ⟨cell, hcell⟩ := encodeConstant_isSome ty c hwf.1
          obtain ⟨cells, nulls, hrest⟩ := ih tl hwf.2
          exact ⟨cell :: cells, false :: nulls, by simp [rowFromLiteralGo, hcell, hrest]⟩
      | nullable c =>
        cases c with
        | none =>
          cases nb with
          | false => exact Bool.noConfusion hwf
          | true =>
            simp only [literalWF] at hwf
            obtain ⟨cells, nulls, hrest⟩ := ih tl hwf
            exact ⟨Cell.uninit :: cells, true :: nulls, by simp [rowFromLiteralGo, hrest]⟩
        | some k =>
          cases nb with
          | false => exact Bool.noConfusion hwf
          | true =>
            simp only [literalWF, Bool.and_eq_true] at hwf
            obtain ⟨cell, hcell⟩ := encodeConstant_isSome ty k hwf.1
            obtain ⟨cells, nulls, hrest⟩ := ih tl hwf.2
            exact ⟨cell :: cells, false :: nulls, by simp [rowFromLiteralGo, hcell, hrest]⟩

theorem getElem?_append_cons {α : Type} (l₁ : List α) (x : α) (l₂ : List α) (n : Nat)
    (h : n = l₁.length) : (l₁ ++ x :: l₂)[n]? = some x := by
  subst h
  rw [List.getElem?_append_right (le_refl _)]
  simp

theorem rowLitAux_succ (row : Row) (layout : RowLayout) (column rem : Nat) :
    rowLitAux row layout column (rem + 1) =
      match columnLiteral row layout column, rowLitAux row layout (column + 1) rem with
      | some v, some rest => some (v :: rest)
      | _, _ => none := rfl

theorem roundtrip_aux (lit : List NullableConstant) :
    ∀ (lay' : RowLayout) (pre : RowLayout) (cellsPre cells' : List Cell)
      (nullsPre nulls' : List Bool),
      cellsPre.length = pre.length → nullsPre.length = pre.length →
      literalWF lit lay' = true →
      rowFromLiteralGo lit lay' = some (cells', nulls') →
      rowLitAux ⟨cellsPre ++ cells', nullsPre ++ nulls'⟩ (pre ++ lay') pre.length lay'.length
        = some lit := by
  induction lit with
  | nil =>
    intro lay' pre cellsPre cells' nullsPre nulls' hc hn hwf hgo
    cases lay' with
    | nil => rfl
    | cons hd tl => exact Bool.noConfusion hwf
  | cons v lit ih =>
    intro lay' pre cellsPre cells' nullsPre nulls' hc hn hwf hgo
    cases lay' with
    | nil =>
      cases v with
      | nonNull c => exact Bool.noConfusion hwf
      | nullable c => cases c <;> exact Bool.noConfusion hwf
    | cons hd tl =>
      obtain ⟨ty, nb⟩ := hd
      cases v with
      | nonNull c =>
        cases nb with
        | true => exact Bool.noConfusion hwf
        | false =>
          simp only [literalWF, Bool.and_eq_true] at hwf
          simp only [rowFromLiteralGo] at hgo
          obtain ⟨cell, hcell⟩ := encodeConstant_isSome ty c hwf.1
          rw [hcell] at hgo
          obtain ⟨cells, nulls, hrest⟩ := rowFromLiteralGo_isSome lit tl hwf.2
          rw [hrest] at hgo
          obtain ⟨rfl, rfl⟩ : cell :: cells = cells' ∧ false :: nulls = nulls' := by
            have h := Option.some.inj hgo
            exact ⟨congrArg Prod.fst h, congrArg Prod.snd h⟩
          have h1 : (pre ++ (ty, false) :: tl)[pre.length]? = some (ty, false) :=
            getElem?_append_cons _ _ _ _ rfl
          have h2 : (cellsPre ++ cell :: cells)[pre.length]? = some cell :=
            getElem?_append_cons _ _ _ _ hc.symm
          have hcol : columnLiteral ⟨cellsPre ++ cell :: cells, nullsPre ++ false :: nulls⟩
              (pre ++ (ty, false) :: tl) pre.length = some (.nonNull c) := by
            simp [columnLiteral, constant_from_column, Row.column_is_null, h1, h2,
              decodeCell_encodeConstant ty c cell hwf.1 hcell]
          have hrec := ih tl (pre ++ [(ty, false)]) (cellsPre ++ [cell]) cells
            (nullsPre ++ [false]) nulls (by simp [hc]) (by simp [hn]) hwf.2 hrest
          simp only [List.append_assoc, List.singleton_append, List.length_append,
            List.length_singleton] at hrec
          simp only [List.length_cons]
          rw [rowLitAux_succ, hcol, hrec]
      | nullable c =>
        cases c with
        | none =>
          cases nb with
          | false => exact Bool.noConfusion hwf
          | true =>
            simp only [literalWF] at hwf
            simp only [rowFromLiteralGo] at hgo
            obtain ⟨cells, nulls, hrest⟩ := rowFromLiteralGo_isSome lit tl hwf
            rw [hrest] at hgo
            obtain ⟨rfl, rfl⟩ : Cell.uninit :: cells = cells' ∧ true :: nulls = nulls' := by
              have h := Option.some.inj hgo
              exact ⟨congrArg Prod.fst h, congrArg Prod.snd h⟩
            have h1 : (pre ++ (ty, true) :: tl)[pre.length]? = some (ty, true) :=
              getElem?_append_cons _ _ _ _ rfl
            have h3 : (nullsPre ++ true :: nulls)[pre.length]? = some true :=
              getElem?_append_cons _ _ _ _ hn.symm
            have hcol : columnLiteral ⟨cellsPre ++ Cell.uninit :: cells, nullsPre ++ true :: nulls⟩
                (pre ++ (ty, true) :: tl) pre.length = some (.nullable none) := by
              simp [columnLiteral, Row.column_is_null, h1, h3]
            have hrec := ih tl (pre ++ [(ty, true)]) (cellsPre ++ [Cell.uninit]) cells
              (nullsPre ++ [true]) nulls (by simp [hc]) (by simp [hn]) hwf hrest
            simp only [List.append_assoc, List.singleton_append, List.length_append,
              List.length_singleton] at hrec
            simp only [List.length_cons]
            rw [rowLitAux_succ, hcol, hrec]
        | some k =>
          cases nb with
          | false => exact Bool.noConfusion hwf
          | true =>
            simp only [literalWF, Bool.and_eq_true] at hwf
            simp only [rowFromLiteralGo] at hgo
            obtain ⟨cell, hcell⟩ := encodeConstant_isSome ty k hwf.1
            rw [hcell] at hgo
            obtain ⟨cells, nulls, hrest⟩ := rowFromLiteralGo_isSome lit tl hwf.2
            rw [hrest] at hgo
            obtain ⟨rfl, rfl⟩ : cell :: cells = cells' ∧ false :: nulls = nulls' := by
              have h := Option.some.inj hgo
              exact ⟨congrArg Prod.fst h, congrArg Prod.snd h⟩
            have h1 : (pre ++ (ty, true) :: tl)[pre.length]? = some (ty, true) :=
              getElem?_append_cons _ _ _ _ rfl
            have h2 : (cellsPre ++ cell :: cells)[pre.length]? = some cell :=
              getElem?_append_cons _ _ _ _ hc.symm
            have h3 : (nullsPre ++ false :: nulls)[pre.length]? = some false :=
              getElem?_append_cons _ _ _ _ hn.symm
            have hcol : columnLiteral ⟨cellsPre ++ cell :: cells, nullsPre ++ false :: nulls⟩
                (pre ++ (ty, true) :: tl) pre.length = some (.nullable (some k)) := by
              simp [columnLiteral, constant_from_column, Row.column_is_null, h1, h2, h3,
                decodeCell_encodeConstant ty k cell hwf.1 hcell]
            have hrec := ih tl (pre ++ [(ty, true)]) (cellsPre ++ [cell]) cells
              (nullsPre ++ [false]) nulls (by simp [hc]) (by simp [hn]) hwf.2 hrest
            simp only [List.append_assoc, List.singleton_append, List.length_append,
              List.length_singleton] at hrec
            simp only [List.length_cons]
            rw [rowLitAux_succ, hcol, hrec]

/-- C1: for every layout without `Ptr` columns and every well-formed literal
of that shape, `row_from_literal` followed by `row_literal_from_row` returns
the original literal bit-for-bit, string content and decimal bits included. -/
theorem literal_round_trip (lit : RowLiteral) (lay : RowLayout)
    (hwf : literalWF lit lay = true) (hptr : noPtr lay = true) :
    ∃ row, row_from_literal lit lay = some row ∧
      row_literal_from_row row lay = some lit := by
  obtain ⟨cells, nulls, hgo⟩ := rowFromLiteralGo_isSome lit lay hwf
  refine ⟨⟨cells, nulls⟩, ?_, ?_⟩
  · simp [row_from_literal, hgo]
  · have h := roundtrip_aux lit lay [] [] cells [] nulls rfl rfl hwf hgo
    simpa [row_literal_from_row] using h

/-- Witness for C1 at a concrete literal with negative, string, decimal,
null and maximal-u64 columns. -/
theorem literal_round_trip_witness :
    ∃ row, row_from_literal c1Lit c1Lay = some row ∧
      row_literal_from_row row c1Lay = some c1Lit :=
  literal_round_trip c1Lit c1Lay (by decide) (by decide)

theorem rowLitAux_get (row : Row) (layout : RowLayout) :
    ∀ (rem start : Nat) (lit : List NullableConstant) (i : Nat),
      rowLitAux row layout start rem = some lit → i < rem →
      ∃ v, columnLiteral row layout (start + i) = some v ∧ lit[i]? = some v := by
  intro rem
  induction rem with
  | zero =>
    intro start lit i h hi
    exact absurd hi (Nat.not_lt_zero i)
  | succ rem ih =>
    intro start lit i h hi
    rw [rowLitAux_succ] at h
    cases hcol : columnLiteral row layout start with
    | none => rw [hcol] at h; exact Option.noConfusion h
    | some v0 =>
      cases hrec : rowLitAux row layout (start + 1) rem with
      | none => rw [hcol, hrec] at h; exact Option.noConfusion h
      | some rest =>
        rw [hcol, hrec] at h
        obtain rfl : v0 :: rest = lit := Option.some.inj h
        cases i with
        | zero => exact ⟨v0, by simpa using hcol, by simp⟩
        | succ i =>
          obtain ⟨v, hv, hg⟩ := ih (start + 1) rest i hrec (by omega)
          refine ⟨v, ?_, by simpa using hg⟩
          rw [show start + (i + 1) = start + 1 + i by omega]
          exact hv

/-- C2: `row_literal_from_row` maps a nullable column with its null bit set
to `Nullable(None)`, a nullable column with a clear null bit to
`Nullable(Some v)` with `v` read from the payload, and a non-nullable column
always to `NonNull v`. -/
theorem row_literal_from_row_columnwise (row : Row) (layout : RowLayout) (lit : RowLiteral)
    (c : Nat) (ty : ColumnType) (nb : Bool)
    (h : row_literal_from_row row layout = some lit)
    (hc : layout[c]? = some (ty, nb)) :
    (nb = true → row.column_is_null c = true → lit[c]? = some (.nullable none)) ∧
    (nb = true → row.column_is_null c = false →
      ∃ v, constant_from_column c row layout = some v ∧
        lit[c]? = some (.nullable (some v))) ∧
    (nb = false →
      ∃ v, constant_from_column c row layout = some v ∧ lit[c]? = some (.nonNull v)) := by
  have hlt : c < layout.length := by
    by_contra hge
    rw [List.getElem?_eq_none (by omega)] at hc
    exact Option.noConfusion hc
  obtain ⟨v, hv, hg⟩ := rowLitAux_get row layout layout.length 0 lit c h hlt
  rw [Nat.zero_add] at hv
  unfold columnLiteral at hv
  rw [hc] at hv
  cases nb with
  | true =>
    refine ⟨?_, ?_, ?_⟩
    · intro _ hnull
      rw [hnull] at hv
      simp only [if_true] at hv
      obtain rfl : NullableConstant.nullable none = v := Option.some.inj hv
      exact hg
    · intro _ hnull
      rw [hnull] at hv
      simp only [Bool.false_eq_true, if_false] at hv
      obtain ⟨k, hk, rfl⟩ := Option.map_eq_some'.mp hv
      exact ⟨k, hk, hg⟩
    · intro hfalse
      exact absurd hfalse (by simp)
  | false =>
    refine ⟨?_, ?_, ?_⟩
    · intro htrue _
      exact absurd htrue (by simp)
    · intro htrue _
      exact absurd htrue (by simp)
    · intro _
      obtain ⟨k, hk, rfl⟩ := Option.map_eq_some'.mp hv
      exact ⟨k, hk, hg⟩

/-- Witness for C2 at a concrete row whose nullable column is null. -/
theorem row_literal_from_row_columnwise_witness :
    c2Lit[1]? = some (.nullable none) :=
  (row_literal_from_row_columnwise c2Row c2Lay c2Lit 1 .i8 true rfl rfl).1 rfl rfl

/-- C3: `consolidate_output` on a declared sink whose endpoint is `None`
returns the empty collection of the declared shape — `Set([])` for a
set-typed sink and `Map([])` for a map-typed sink — without panicking. -/
theorem consolidate_output_unreachable_sink (c : DbspCircuit) (target : NodeId)
    (layout : StreamLayout) (h : c.outputs.lookup target = some (none, layout)) :
    consolidate_output c target = some (StreamCollection.empty layout) ∧
    (∀ k, layout = .set k → consolidate_output c target = some (.set [])) ∧
    (∀ k v, layout = .map k v → consolidate_output c target = some (.map [])) := by
  refine ⟨?_, ?_, ?_⟩
  · unfold consolidate_output
    rw [h]
  · intro k hk
    subst hk
    unfold consolidate_output
    rw [h]
    rfl
  · intro k v hkv
    subst hkv
    unfold consolidate_output
    rw [h]
    rfl

/-- Witness for C3 at the absent map sink of `witCircuit`. -/
theorem consolidate_output_unreachable_sink_witness :
    consolidate_output witCircuit 3 = some (.map []) :=
  (consolidate_output_unreachable_sink witCircuit 3 (.map 0 0) rfl).2.2 0 0 rfl

/-- C4: `append_input` on a declared source whose endpoint is `None` returns
with the circuit unchanged and no failure, and on a node that is not a
declared source it panics. -/
theorem append_input_unused_and_unknown (c : DbspCircuit) (target : NodeId)
    (data : StreamCollection) :
    (∀ layout, c.inputs.lookup target = some (none, layout) →
      append_input c target data = (c, none)) ∧
    (c.inputs.lookup target = none →
      append_input c target data = (c, some .panicked)) := by
  constructor
  · intro layout h
    unfold append_input
    rw [h]
  · intro h
    unfold append_input
    rw [h]

/-- Witness for C4 at the absent source (node 1) and an unknown node (99) of
`witCircuit`. -/
theorem append_input_unused_and_unknown_witness :
    append_input witCircuit 1 (.set []) = (witCircuit, none) ∧
    append_input witCircuit 99 (.set []) = (witCircuit, some .panicked) :=
  ⟨(append_input_unused_and_unknown witCircuit 1 (.set [])).1 (.set 0) rfl,
   (append_input_unused_and_unknown witCircuit 99 (.set [])).2 rfl⟩

theorem parseAll_error (pre suf : List JsonParse) (e : String)
    (hpre : ∀ x ∈ pre, ∃ r, x = .ok r) :
    parseAll (pre ++ .error e :: suf) = .error e := by
  induction pre with
  | nil => rfl
  | cons x pre ih =>
    obtain ⟨r, rfl⟩ := hpre x (List.mem_cons_self x pre)
    have hrest : ∀ y ∈ pre, ∃ r2, y = Except.ok r2 := by
      intro y hy
      exact hpre y (List.mem_cons_of_mem _ hy)
    rw [List.cons_append]
    show parseAll (.ok r :: (pre ++ .error e :: suf)) = .error e
    unfold parseAll
    rw [ih hrest]

/-- C5: on a live set-typed source with a registered JSON demand, a malformed
value at position `k` of the stream makes `append_json_input` surface a parse
error with the circuit unchanged (the `k − 1` parsed rows are never appended)
and independently of whatever follows the malformed value. -/
theorem append_json_input_parse_error (c : DbspCircuit) (target : NodeId)
    (input : RowInput) (keyId : LayoutId)
    (hin : c.inputs.lookup target = some (some input, .set keyId))
    (hdem : c.json_deser_demands.contains keyId = true)
    (pre suf : List JsonParse) (e : String)
    (hpre : ∀ x ∈ pre, ∃ r, x = .ok r) :
    append_json_input c target (pre ++ .error e :: suf) = (c, some (.parseError e)) := by
  unfold append_json_input
  rw [hin]
  simp only [hdem, if_true]
  rw [parseAll_error pre suf e hpre]

/-- Witness for C5: a malformed value in second position aborts the call,
leaves `witCircuit` unchanged and ignores the trailing value. -/
theorem append_json_input_parse_error_witness :
    append_json_input witCircuit 0 [.ok witRow7, .error "bad", .ok witRow9]
      = (witCircuit, some (.parseError "bad")) :=
  append_json_input_parse_error witCircuit 0 (.set []) 0 rfl rfl [.ok witRow7]
    [.ok witRow9] "bad"
    (by intro x hx; exact ⟨witRow7, List.mem_singleton.mp hx⟩)

/-- C6: on a map-typed source with a live endpoint, both `append_json_input`
and `append_json_record` fail with not-implemented before any row is pushed
(the circuit is returned unchanged). -/
theorem append_json_map_not_implemented (c : DbspCircuit) (target : NodeId)
    (input : RowInput) (k v : LayoutId)
    (hin : c.inputs.lookup target = some (some input, .map k v))
    (json : List JsonParse) (record : JsonParse) :
    append_json_input c target json = (c, some .notImplemented) ∧
    append_json_record c target record = (c, some .notImplemented) := by
  constructor
  · unfold append_json_input
    rw [hin]
  · unfold append_json_record
    rw [hin]

/-- Witness for C6 at the live map source (node 2) of `witCircuit`. -/
theorem append_json_map_not_implemented_witness :
    append_json_input witCircuit 2 [.ok witRow7] = (witCircuit, some .notImplemented) ∧
    append_json_record witCircuit 2 (.ok witRow7) = (witCircuit, some .notImplemented) :=
  append_json_map_not_implemented witCircuit 2 (.map []) 0 0 rfl [.ok witRow7] (.ok witRow7)

/-- C7: inserting a CSV (resp. JSON) demand for a layout already present
panics, and a first insertion for a fresh layout succeeds and records exactly
the given mapping. -/
theorem demands_write_once (d : Demands) (layout : LayoutId)
    (cm : List (Nat × Nat × Option String)) (jm : JsonDeserConfig) :
    ((d.csv.lookup layout).isSome → d.add_csv_deserialize layout cm = none) ∧
    (d.csv.lookup layout = none → ∃ d2, d.add_csv_deserialize layout cm = some d2 ∧
      d2.csv.lookup layout = some cm) ∧
    ((d.json_deser.lookup layout).isSome → d.add_json_deserialize layout jm = none) ∧
    (d.json_deser.lookup layout = none → ∃ d2, d.add_json_deserialize layout jm = some d2 ∧
      d2.json_deser.lookup layout = some jm) := by
  refine ⟨?_, ?_, ?_, ?_⟩
  · intro h
    obtain ⟨x, hx⟩ := Option.isSome_iff_exists.mp h
    unfold Demands.add_csv_deserialize
    rw [hx]
  · intro h
    unfold Demands.add_csv_deserialize
    rw [h]
    exact ⟨_, rfl, by simp [List.lookup]⟩
  · intro h
    obtain ⟨x, hx⟩ := Option.isSome_iff_exists.mp h
    unfold Demands.add_json_deserialize
    rw [hx]
  · intro h
    unfold Demands.add_json_deserialize
    rw [h]
    exact ⟨_, rfl, by simp [List.lookup]⟩

/-- Witness for C7: a fresh insertion into the empty registry succeeds and a
second insertion for the same layout panics. -/
theorem demands_write_once_witness :
    (∃ d2, Demands.new.add_csv_deserialize 5 [(0, 0, none)] = some d2 ∧
      d2.csv.lookup 5 = some [(0, 0, none)]) ∧
    witDemands.add_csv_deserialize 5 [] = none ∧
    witDemands.add_json_deserialize 5 ⟨5, 1⟩ = none :=
  ⟨(demands_write_once Demands.new 5 [(0, 0, none)] ⟨5, 0⟩).2.1 rfl,
   (demands_write_once witDemands 5 [] ⟨5, 0⟩).1 rfl,
   (demands_write_once witDemands 5 [] ⟨5, 1⟩).2.2.1 rfl⟩

/-- C9: reading a row column back into a `Constant` decodes a `Date` column
from the stored little-endian i32 as days since the UTC epoch, a `Timestamp`
column from the stored little-endian i64 as milliseconds since the UTC epoch,
and a `Decimal` column from the stored 128 bits assembled little-endian as
the serialized form. -/
theorem constant_from_column_encodings (row : Row) (layout : RowLayout) (c : Nat)
    (nb : Bool) :
    (∀ b0 b1 b2 b3 : Nat, layout[c]? = some (.date, nb) →
      row.cells[c]? = some (.bytes [b0, b1, b2, b3]) →
      constant_from_column c row layout =
        some (.date (toSigned 32 (b0 + 256 ^ 1 * b1 + 256 ^ 2 * b2 + 256 ^ 3 * b3)))) ∧
    (∀ b0 b1 b2 b3 b4 b5 b6 b7 : Nat, layout[c]? = some (.timestamp, nb) →
      row.cells[c]? = some (.bytes [b0, b1, b2, b3, b4, b5, b6, b7]) →
      constant_from_column c row layout =
        some (.timestamp (toSigned 64 (b0 + 256 ^ 1 * b1 + 256 ^ 2 * b2 + 256 ^ 3 * b3 +
          256 ^ 4 * b4 + 256 ^ 5 * b5 + 256 ^ 6 * b6 + 256 ^ 7 * b7)))) ∧
    (∀ b0 b1 b2 b3 b4 b5 b6 b7 b8 b9 b10 b11 b12 b13 b14 b15 : Nat,
      layout[c]? = some (.decimal, nb) →
      row.cells[c]? = some (.bytes [b0, b1, b2, b3, b4, b5, b6, b7, b8, b9, b10, b11,
        b12, b13, b14, b15]) →
      constant_from_column c row layout =
        some (.decimal (b0 + 256 ^ 1 * b1 + 256 ^ 2 * b2 + 256 ^ 3 * b3 +
          256 ^ 4 * b4 + 256 ^ 5 * b5 + 256 ^ 6 * b6 + 256 ^ 7 * b7 +
          256 ^ 8 * b8 + 256 ^ 9 * b9 + 256 ^ 10 * b10 + 256 ^ 11 * b11 +
          256 ^ 12 * b12 + 256 ^ 13 * b13 + 256 ^ 14 * b14 + 256 ^ 15 * b15))) := by
  refine ⟨?_, ?_, ?_⟩
  · intro b0 b1 b2 b3 hc hcell
    have hval : readLE [b0, b1, b2, b3] =
        b0 + 256 ^ 1 * b1 + 256 ^ 2 * b2 + 256 ^ 3 * b3 := by
      simp [readLE]
      ring
    unfold constant_from_column
    rw [hc, hcell]
    simp only [decodeCell, List.length_cons, List.length_nil]
    rw [if_pos (by norm_num), hval]
  · intro b0 b1 b2 b3 b4 b5 b6 b7 hc hcell
    have hval : readLE [b0, b1, b2, b3, b4, b5, b6, b7] =
        b0 + 256 ^ 1 * b1 + 256 ^ 2 * b2 + 256 ^ 3 * b3 +
          256 ^ 4 * b4 + 256 ^ 5 * b5 + 256 ^ 6 * b6 + 256 ^ 7 * b7 := by
      simp [readLE]
      ring
    unfold constant_from_column
    rw [hc, hcell]
    simp only [decodeCell, List.length_cons, List.length_nil]
    rw [if_pos (by norm_num), hval]
  · intro b0 b1 b2 b3 b4 b5 b6 b7 b8 b9 b10 b11 b12 b13 b14 b15 hc hcell
    have hval : readLE [b0, b1, b2, b3, b4, b5, b6, b7, b8, b9, b10, b11, b12, b13, b14, b15] =
        b0 + 256 ^ 1 * b1 + 256 ^ 2 * b2 + 256 ^ 3 * b3 +
          256 ^ 4 * b4 + 256 ^ 5 * b5 + 256 ^ 6 * b6 + 256 ^ 7 * b7 +
          256 ^ 8 * b8 + 256 ^ 9 * b9 + 256 ^ 10 * b10 + 256 ^ 11 * b11 +
          256 ^ 12 * b12 + 256 ^ 13 * b13 + 256 ^ 14 * b14 + 256 ^ 15 * b15 := by
      simp [readLE]
      ring
    unfold constant_from_column
    rw [hc, hcell]
    simp only [decodeCell, List.length_cons, List.length_nil]
    rw [if_pos (by norm_num), hval]

/-- Witness for C9 at a one-column date layout storing the bytes 1,0,0,0. -/
theorem constant_from_column_encodings_witness :
    constant_from_column 0 (⟨[.bytes [1, 0, 0, 0]], [false]⟩ : Row) [(.date, false)] =
      some (.date (toSigned 32 (1 + 256 ^ 1 * 0 + 256 ^ 2 * 0 + 256 ^ 3 * 0))) :=
  (constant_from_column_encodings ⟨[.bytes [1, 0, 0, 0]], [false]⟩ [(.date, false)] 0
    false).1 1 0 0 0 rfl rfl

theorem mapM_mem_option {α β : Type} (f : α → Option β) :
    ∀ (l : List α) (out : List β), l.mapM f = some out → ∀ b ∈ out, ∃ a ∈ l, f a = some b := by
  intro l
  induction l with
  | nil =>
    intro out h b hb
    simp only [List.mapM_nil, pure, Option.some.injEq] at h
    subst h
    cases hb
  | cons a l ih =>
    intro out h b hb
    rw [List.mapM_cons] at h
    cases hfa : f a with
    | none => rw [hfa] at h; exact Option.noConfusion h
    | some x =>
      rw [hfa] at h
      cases hml : l.mapM f with
      | none =>
        rw [hml] at h
        exact Option.noConfusion h
      | some xs =>
        rw [hml] at h
        obtain rfl : x :: xs = out := by simpa using h
        rcases List.mem_cons.mp hb with rfl | hb2
        · exact ⟨a, List.mem_cons_self a l, hfa⟩
        · obtain ⟨a2, ha2, hfa2⟩ := ih xs hml b hb2
          exact ⟨a2, List.mem_cons_of_mem a ha2, hfa2⟩

theorem consolidateKeyVals_weight (kl : RowLiteral) (valLay : RowLayout)
    (vals : List (Row × Int)) (out : List (RowLiteral × RowLiteral × Int))
    (h : consolidateKeyVals kl valLay vals = some out) :
    ∀ t ∈ out, t.2.2 = firstWeight vals := by
  cases vals with
  | nil =>
    obtain rfl : ([] : List (RowLiteral × RowLiteral × Int)) = out := Option.some.inj h
    intro t ht
    cases ht
  | cons vw rest =>
    obtain ⟨v0, w0⟩ := vw
    simp only [consolidateKeyVals] at h
    cases hv : row_literal_from_row v0 valLay with
    | none => rw [hv] at h; exact Option.noConfusion h
    | some vl0 =>
      rw [hv] at h
      cases hm : rest.mapM (fun vw => (row_literal_from_row vw.1 valLay).map
          (fun vl => (kl, vl, w0))) with
      | none => rw [hm] at h; exact Option.noConfusion h
      | some tail =>
        rw [hm] at h
        obtain rfl : (kl, vl0, w0) :: tail = out := Option.some.inj h
        intro t ht
        rcases List.mem_cons.mp ht with rfl | ht2
        · rfl
        · obtain ⟨a, _, hfa⟩ := mapM_mem_option _ rest tail hm t ht2
          obtain ⟨vl, _, rfl⟩ := Option.map_eq_some'.mp hfa
          rfl

theorem consolidateMapBatch_blocks (keyLay valLay : RowLayout) :
    ∀ (batch : List (Row × List (Row × Int))) (out : List (RowLiteral × RowLiteral × Int)),
      consolidateMapBatch keyLay valLay batch = some out →
      ∃ blocks : List (List (RowLiteral × RowLiteral × Int)),
        out = blocks.flatten ∧
        List.Forall₂ (fun (kv : Row × List (Row × Int)) block =>
          ∀ t ∈ block, t.2.2 = firstWeight kv.2) batch blocks := by
  intro batch
  induction batch with
  | nil =>
    intro out h
    obtain rfl : ([] : List (RowLiteral × RowLiteral × Int)) = out := Option.some.inj h
    exact ⟨[], rfl, List.Forall₂.nil⟩
  | cons kv rest ih =>
    intro out h
    obtain ⟨k, vals⟩ := kv
    simp only [consolidateMapBatch] at h
    cases hk : row_literal_from_row k keyLay with
    | none => rw [hk] at h; exact Option.noConfusion h
    | some kl =>
      simp only [hk] at h
      cases he : consolidateKeyVals kl valLay vals with
      | none => rw [he] at h; exact Option.noConfusion h
      | some entries =>
        cases ht : consolidateMapBatch keyLay valLay rest with
        | none => rw [he, ht] at h; exact Option.noConfusion h
        | some tailEntries =>
          rw [he, ht] at h
          obtain rfl : entries ++ tailEntries = out := Option.some.inj h
          obtain ⟨blocks, rfl, hf⟩ := ih tailEntries ht
          exact ⟨entries :: blocks, by simp,
            List.Forall₂.cons (consolidateKeyVals_weight kl valLay vals entries he) hf⟩

/-- C10: in `consolidate_output` on a map-typed sink the weight is read once
per key, before the value loop: the emitted triples split into per-key blocks
in which every `(key, value, weight)` tuple carries the weight stored at that
key's first value, not a per-(key, value) weight. -/
theorem consolidate_output_map_weight_once_per_key (c : DbspCircuit) (target : NodeId)
    (batch : List (Row × List (Row × Int))) (keyId valId : LayoutId)
    (triples : List (RowLiteral × RowLiteral × Int))
    (h : c.outputs.lookup target = some (some (.map batch), .map keyId valId))
    (hres : consolidate_output c target = some (.map triples)) :
    ∃ blocks : List (List (RowLiteral × RowLiteral × Int)),
      triples = blocks.flatten ∧
      List.Forall₂ (fun (kv : Row × List (Row × Int)) block =>
        ∀ t ∈ block, t.2.2 = firstWeight kv.2) batch blocks := by
  have hres2 : Option.map StreamCollection.map
      (consolidateMapBatch (c.layouts keyId) (c.layouts valId) batch)
      = some (.map triples) := by
    rw [← hres]
    unfold consolidate_output
    rw [h]
  cases hm : consolidateMapBatch (c.layouts keyId) (c.layouts valId) batch with
  | none => rw [hm] at hres2; exact Option.noConfusion hres2
  | some out =>
    rw [hm] at hres2
    obtain rfl : out = triples := by
      have h2 := Option.some.inj hres2
      exact StreamCollection.map.inj h2
    exact consolidateMapBatch_blocks _ _ batch _ hm

/-- Witness for C10 at the live map sink of `witCircuit`, whose key has two
values with weights 2 and 5: both emitted tuples carry weight 2. -/
theorem consolidate_output_map_weight_once_per_key_witness :
    ∃ blocks : List (List (RowLiteral × RowLiteral × Int)),
      witTriples = blocks.flatten ∧
      List.Forall₂ (fun (kv : Row × List (Row × Int)) block =>
        ∀ t ∈ block, t.2.2 = firstWeight kv.2) witMapBatch blocks :=
  consolidate_output_map_weight_once_per_key witCircuit 4 witMapBatch 0 0 witTriples rfl rfl

theorem lookup_append_list {α : Type} (m₁ m₂ : List (NodeId × α)) (s : NodeId) :
    (m₁ ++ m₂).lookup s = ((m₁.lookup s).orElse fun _ => m₂.lookup s) := by
  induction m₁ with
  | nil => simp [List.lookup]
  | cons hd tl ih =>
    obtain ⟨k, v⟩ := hd
    by_cases hk : s = k
    · subst hk
      simp [List.lookup]
    · have hbeq : (s == k) = false := by
        simp [hk]
      simp only [List.cons_append, List.lookup, hbeq]
      exact ih

theorem lookup_mapRuntime {α : Type} (runtime : List (NodeId × (α × StreamLayout))) (s : NodeId) :
    ((runtime.map fun il => (il.1, (some il.2.1, il.2.2))).lookup s : Option (Option α × StreamLayout))
      = (runtime.lookup s).map fun p => (some p.1, p.2) := by
  induction runtime with
  | nil => rfl
  | cons hd tl ih =>
    obtain ⟨k, v, l⟩ := hd
    by_cases hk : s = k
    · subst hk
      simp [List.lookup]
    · have hbeq : (s == k) = false := by
        simp [hk]
      simp only [List.map_cons, List.lookup, hbeq]
      exact ih

theorem lookup_orInsert_isSome {α : Type} (m : List (NodeId × α)) (k s : NodeId) (v : α)
    (h : (m.lookup s).isSome) : (orInsert m k v).lookup s = m.lookup s := by
  unfold orInsert
  cases hm : m.lookup k with
  | some _ => rfl
  | none =>
    rw [lookup_append_list]
    obtain ⟨x, hx⟩ := Option.isSome_iff_exists.mp h
    rw [hx]
    rfl

theorem lookup_orInsert_self {α : Type} (m : List (NodeId × α)) (k : NodeId) (v : α)
    (h : m.lookup k = none) : (orInsert m k v).lookup k = some v := by
  unfold orInsert
  rw [h, lookup_append_list, h]
  simp [List.lookup]

theorem lookup_orInsert_ne {α : Type} (m : List (NodeId × α)) (k s : NodeId) (v : α)
    (h : s ≠ k) : (orInsert m k v).lookup s = m.lookup s := by
  unfold orInsert
  cases hm : m.lookup k with
  | some _ => rfl
  | none =>
    rw [lookup_append_list]
    cases hs : m.lookup s with
    | some x => rfl
    | none =>
      have hbeq : (s == k) = false := by
        simp [h]
      simp [List.lookup, hbeq]

theorem accountMissing_fold_isSome {α : Type} (declared : List (NodeId × StreamLayout)) :
    ∀ (base : List (NodeId × (Option α × StreamLayout))) (s : NodeId),
      (base.lookup s).isSome →
      (declared.foldl (fun m sl => orInsert m sl.1 (none, sl.2)) base).lookup s
        = base.lookup s := by
  induction declared with
  | nil => intro base s _; rfl
  | cons hd tl ih =>
    intro base s h
    rw [List.foldl_cons]
    have hpres : (orInsert base hd.1 (none, hd.2)).lookup s = base.lookup s :=
      lookup_orInsert_isSome base hd.1 s (none, hd.2) h
    rw [ih (orInsert base hd.1 (none, hd.2)) s (by rw [hpres]; exact h)]
    exact hpres

theorem accountMissing_fold_absent {α : Type} (declared : List (NodeId × StreamLayout)) :
    ∀ (base : List (NodeId × (Option α × StreamLayout))) (s : NodeId) (l : StreamLayout),
      (s, l) ∈ declared → (declared.map Prod.fst).Nodup →
      base.lookup s = none →
      (declared.foldl (fun m sl => orInsert m sl.1 (none, sl.2)) base).lookup s
        = some (none, l) := by
  induction declared with
  | nil =>
    intro base s l hmem _ _
    cases hmem
  | cons hd tl ih =>
    intro base s l hmem hnodup h
    rw [List.foldl_cons]
    rcases List.mem_cons.mp hmem with heq | hmem2
    · subst heq
      have hb : (orInsert base s (none, l)).lookup s = some (none, l) :=
        lookup_orInsert_self base s (none, l) h
      rw [accountMissing_fold_isSome tl (orInsert base s (none, l)) s (by rw [hb]; rfl)]
      exact hb
    · have hne : s ≠ hd.1 := by
        intro heq
        simp only [List.map_cons, List.nodup_cons] at hnodup
        exact hnodup.1 (heq ▸ List.mem_map_of_mem Prod.fst hmem2)
      have hb : (orInsert base hd.1 (none, hd.2)).lookup s = none := by
        rw [lookup_orInsert_ne base hd.1 s (none, hd.2) hne]
        exact h
      refine ih (orInsert base hd.1 (none, hd.2)) s l hmem2 ?_ hb
      simp only [List.map_cons, List.nodup_cons] at hnodup
      exact hnodup.2

/-- C8: `DbspCircuit::new` snapshots the declared source and sink
enumerations before optimization and left-joins the runtime's endpoint maps
with them: every declared node is a key of the resulting map, bound to
`Some(handle)` with the runtime's layout when the runtime instantiated the
endpoint and to `None` with the declared layout when it did not — whatever
the optimizer did to the graph. -/
theorem circuit_new_left_join (graph : GraphModel) (opt : Bool)
    (optimizer : GraphModel → GraphModel) (validate : GraphModel → Bool)
    (runtimeOf : GraphModel → RuntimeEndpoints) (demands : Demands)
    (layouts : LayoutId → RowLayout) (c : DbspCircuit)
    (hnodupS : (graph.sources.map Prod.fst).Nodup)
    (hnodupK : (graph.sinks.map Prod.fst).Nodup)
    (hc : circuitNew graph opt optimizer validate runtimeOf demands layouts = some c)
    (s : NodeId) (l : StreamLayout) :
    ((s, l) ∈ graph.sources →
      (c.inputs.lookup s).isSome ∧
      (∀ h l2, (runtimeOf (if opt then optimizer graph else graph)).inputs.lookup s
          = some (h, l2) → c.inputs.lookup s = some (some h, l2)) ∧
      ((runtimeOf (if opt then optimizer graph else graph)).inputs.lookup s = none →
        c.inputs.lookup s = some (none, l))) ∧
    ((s, l) ∈ graph.sinks →
      (c.outputs.lookup s).isSome ∧
      (∀ h l2, (runtimeOf (if opt then optimizer graph else graph)).outputs.lookup s
          = some (h, l2) → c.outputs.lookup s = some (some h, l2)) ∧
      ((runtimeOf (if opt then optimizer graph else graph)).outputs.lookup s = none →
        c.outputs.lookup s = some (none, l))) := by
  have hc2 : c = {
      inputs := accountMissing (runtimeOf (if opt then optimizer graph else graph)).inputs
        graph.sources
      outputs := accountMissing (runtimeOf (if opt then optimizer graph else graph)).outputs
        graph.sinks
      json_deser_demands := demands.json_deser.map Prod.fst
      layouts := layouts } := by
    unfold circuitNew at hc
    by_cases hv : validate graph = true
    · rw [if_pos hv] at hc
      by_cases ho : (opt && !validate (if opt then optimizer graph else graph)) = true
      · rw [if_pos ho] at hc
        exact Option.noConfusion hc
      · rw [if_neg ho] at hc
        exact (Option.some.inj hc).symm
    · rw [if_neg hv] at hc
      exact Option.noConfusion hc
  have hin : c.inputs = accountMissing
      (runtimeOf (if opt then optimizer graph else graph)).inputs graph.sources := by
    rw [hc2]
  have hout : c.outputs = accountMissing
      (runtimeOf (if opt then optimizer graph else graph)).outputs graph.sinks := by
    rw [hc2]
  constructor
  · intro hmem
    refine ⟨?_, ?_, ?_⟩
    · rw [hin]
      cases hrt : (runtimeOf (if opt then optimizer graph else graph)).inputs.lookup s with
      | some p =>
        have hbase := lookup_mapRuntime
          (runtimeOf (if opt then optimizer graph else graph)).inputs s
        rw [hrt] at hbase
        rw [accountMissing, accountMissing_fold_isSome graph.sources _ s (by rw [hbase]; rfl),
          hbase]
        rfl
      | none =>
        have hbase := lookup_mapRuntime
          (runtimeOf (if opt then optimizer graph else graph)).inputs s
        rw [hrt] at hbase
        rw [accountMissing, accountMissing_fold_absent graph.sources _ s l hmem hnodupS hbase]
        rfl
    · intro h l2 hrt
      have hbase := lookup_mapRuntime
        (runtimeOf (if opt then optimizer graph else graph)).inputs s
      rw [hrt] at hbase
      rw [hin, accountMissing,
        accountMissing_fold_isSome graph.sources _ s (by rw [hbase]; rfl), hbase]
      rfl
    · intro hrt
      have hbase := lookup_mapRuntime
        (runtimeOf (if opt then optimizer graph else graph)).inputs s
      rw [hrt] at hbase
      rw [hin, accountMissing,
        accountMissing_fold_absent graph.sources _ s l hmem hnodupS hbase]
  · intro hmem
    refine ⟨?_, ?_, ?_⟩
    · rw [hout]
      cases hrt : (runtimeOf (if opt then optimizer graph else graph)).outputs.lookup s with
      | some p =>
        have hbase := lookup_mapRuntime
          (runtimeOf (if opt then optimizer graph else graph)).outputs s
        rw [hrt] at hbase
        rw [accountMissing, accountMissing_fold_isSome graph.sinks _ s (by rw [hbase]; rfl),
          hbase]
        rfl
      | none =>
        have hbase := lookup_mapRuntime
          (runtimeOf (if opt then optimizer graph else graph)).outputs s
        rw [hrt] at hbase
        rw [accountMissing, accountMissing_fold_absent graph.sinks _ s l hmem hnodupK hbase]
        rfl
    · intro h l2 hrt
      have hbase := lookup_mapRuntime
        (runtimeOf (if opt then optimizer graph else graph)).outputs s
      rw [hrt] at hbase
      rw [hout, accountMissing,
        accountMissing_fold_isSome graph.sinks _ s (by rw [hbase]; rfl), hbase]
      rfl
    · intro hrt
      have hbase := lookup_mapRuntime
        (runtimeOf (if opt then optimizer graph else graph)).outputs s
      rw [hrt] at hbase
      rw [hout, accountMissing,
        accountMissing_fold_absent graph.sinks _ s l hmem hnodupK hbase]

/-- Witness for C8: source 1 of `witGraph` is not instantiated by the
runtime, yet the circuit's input map binds it to `None` with its declared
layout. -/
theorem circuit_new_left_join_witness :
    witNewCircuit.inputs.lookup 1 = some (none, .set 0) :=
  ((circuit_new_left_join witGraph true witOptimizer witValidate witRuntimeOf Demands.new
      witLayouts witNewCircuit (by decide) (by decide) rfl 1 (.set 0)).1
    (by decide)).2.2 rfl
